import Mathlib

/-!
Shallow embedding of the `Container` dependency-injection registry and
memoizer (`src/unnamed/part_000`, the authoritative variant per the spec's
design notes: separate provider table, `unregister(service, provider)` flag).

Modelling choices:
* A `Token` models a JS producer reference: its reference identity (`id`),
  whether it is an `instanceof Function` (`isFunction`) and whether its
  `.prototype` is truthy (`hasPrototype`) — exactly the facets the code reads.
* The two `WeakMap`s `instances` and `providers` are modelled as partial
  tables `Token → Option _`.
* Producer invocation is modelled by an environment `Env`: the value
  (or exception) produced by the k-th invocation of each producer.  Each
  invocation is recorded in a ghost `log` (target, whether it was invoked
  with `new`, and the — always empty — argument list), so "the provider is
  re-invoked" is the log growing.
* JS exceptions become `Except Unit`; an operation returns its outcome
  together with the post-state (state mutations that happened before a
  throw are kept, as in JS).
-/

/-- A producer reference (class or factory): JS reference identity plus the
two runtime facets the container inspects. -/
structure Token where
  id : Nat
  isFunction : Bool
  hasPrototype : Bool
deriving DecidableEq, Repr

/-- Outcome of one invocation of a producer. -/
inductive Outcome where
  | ret (v : Nat)
  | thrown
deriving DecidableEq, Repr

/-- Behaviour environment: what the k-th invocation of each producer does.
Produced instances are identified by `Nat` (reference identity of the
returned object). -/
def Env : Type := Token → Nat → Outcome

/-- Record of one producer invocation: the producer, whether it was invoked
with object-construction semantics (`new`), and the argument list passed. -/
structure Call where
  target : Token
  asClass : Bool
  args : List Nat
deriving DecidableEq, Repr

/-- Container state: the `instances` WeakMap, the `providers` WeakMap, and
the ghost log of producer invocations. -/
structure CState where
  instances : Token → Option Nat
  providers : Token → Option Token
  log : List Call

/-- Pointwise update of a table. -/
def upd {κ α : Type} [DecidableEq κ] (f : κ → α) (k : κ) (v : α) : κ → α :=
  fun x => if x = k then v else f x

@[simp] theorem upd_same {κ α : Type} [DecidableEq κ] (f : κ → α) (k : κ) (v : α) :
    upd f k v k = v := by simp [upd]

@[simp] theorem upd_other {κ α : Type} [DecidableEq κ] (f : κ → α) (k : κ) (v : α)
    (x : κ) (h : x ≠ k) : upd f k v x = f x := by simp [upd, h]

/-- Model of `Container.supports`: `service instanceof Function && service.prototype`
(truthiness of the prototype). -/
def supports (service : Token) : Bool :=
  service.isFunction && service.hasPrototype

/-- Number of invocations of producer `p` recorded so far. -/
def invocations (s : CState) (p : Token) : Nat :=
  (s.log.filter (fun c => c.target = p)).length

/-- Model of `Container.serve`: classify the provider and invoke it — `new provider()`
when `supports`, a plain nullary call otherwise.  Returns the outcome and the
state with the invocation logged (the invocation happens even when it
throws). -/
def serve (env : Env) (s : CState) (provider : Token) : Except Unit Nat × CState :=
  let k := invocations s provider
  let s' : CState := { s with log := s.log ++ [⟨provider, supports provider, []⟩] }
  match env provider k with
  | Outcome.ret v => (Except.ok v, s')
  | Outcome.thrown => (Except.error (), s')

/-- Model of `Container.register`: bind `factory ?? service` as the provider, then
eagerly serve it and store the result as the cached instance.  The provider
binding is written before the construction attempt; a throwing construction
aborts before the instance is written. -/
def register (env : Env) (s : CState) (service : Token) (factory : Option Token) :
    Except Unit Unit × CState :=
  let provider := factory.getD service
  let s1 : CState := { s with providers := upd s.providers service (some provider) }
  match serve env s1 provider with
  | (Except.ok v, s2) => (Except.ok (), { s2 with instances := upd s2.instances service (some v) })
  | (Except.error e, s2) => (Except.error e, s2)

/-- Model of `Container.resolve`: auto-register on first use; `fresh` bypasses the
singleton cache entirely; otherwise lazily populate and return the cached
instance. -/
def resolve (env : Env) (s : CState) (service : Token) (fresh : Bool) :
    Except Unit Nat × CState :=
  let step1 : Except Unit Unit × CState :=
    if (s.providers service).isSome then (Except.ok (), s)
    else register env s service none
  match step1 with
  | (Except.error e, s1) => (Except.error e, s1)
  | (Except.ok _, s1) =>
    if fresh then
      let provider := (s1.providers service).getD service
      serve env s1 provider
    else if (s1.instances service).isSome then
      (Except.ok ((s1.instances service).getD 0), s1)
    else
      let provider := (s1.providers service).getD service
      match serve env s1 provider with
      | (Except.ok v, s2) =>
        let s3 : CState := { s2 with instances := upd s2.instances service (some v) }
        (Except.ok ((s3.instances service).getD 0), s3)
      | (Except.error e, s2) => (Except.error e, s2)

/-- Model of `Container.unregister`: delete the cached instance unconditionally and
the provider binding only when the flag is set. -/
def unregister (s : CState) (service : Token) (provider : Bool) : CState :=
  let s1 : CState := { s with instances := upd s.instances service none }
  if provider then { s1 with providers := upd s1.providers service none } else s1

/-- One public registry operation. -/
inductive Op where
  | reg (service : Token) (factory : Option Token)
  | res (service : Token) (fresh : Bool)
  | unreg (service : Token) (dropProvider : Bool)
deriving DecidableEq, Repr

/-- Execute one operation (the result value is discarded; thrown exceptions
leave the state the operation produced up to the throw, as in JS). -/
def stepOp (env : Env) (s : CState) : Op → CState
  | Op.reg t f => (register env s t f).2
  | Op.res t fr => (resolve env s t fr).2
  | Op.unreg t d => unregister s t d

/-- Execute a sequence of operations. -/
def runOps (env : Env) (s : CState) : List Op → CState
  | [] => s
  | op :: ops => runOps env (stepOp env s op) ops

/-- The initial container state: both tables empty, nothing invoked. -/
def cinit : CState :=
  { instances := fun _ => none, providers := fun _ => none, log := [] }

/-!
## Memoizer embedding

`Container.memo` returns a closure that captures a particular `Map` object
("cache").  We give each created `Map` a fresh identifier (`nextCache`) and
model the `memos` WeakMap as `fn-id → Option cache-id` and the heap of `Map`
objects as `cache-id → key → Option value`.  A wrapper is the pair of the
function it wraps and the cache id it captured.  `refresh` deletes only the
`memos` association; the `Map` object itself survives inside any wrapper
that captured it — exactly the JS closure behaviour.

Underlying functions are identified by `Nat`; their behaviour is a pure
environment `FnEnv`.  Argument lists are `List Int`; `JSON.stringify(args)`
is modelled as a canonical string serialization.  Every invocation of an
underlying function is recorded in `callLog`.
-/

/-- A memoized wrapper: the wrapped function and the cache it captured. -/
structure Wrapper where
  fn : Nat
  cacheId : Nat
deriving DecidableEq, Repr

/-- Memoizer state: the `memos` WeakMap, the heap of `Map` objects, the next
fresh `Map` identity, the wrappers created so far (ghost), and the ghost log
of underlying-function invocations. -/
structure MState where
  memos : Nat → Option Nat
  caches : Nat → String → Option Int
  nextCache : Nat
  wrappers : List Wrapper
  callLog : List (Nat × List Int)

/-- Pure behaviour of the underlying functions. -/
def FnEnv : Type := Nat → List Int → Int

/-- Model of `JSON.stringify(args)`: a canonical, order-sensitive, value-based string
serialization of the argument list. -/
def jsonKey (args : List Int) : String :=
  toString args

/-- Model of `Container.memo`: reuse the existing cache for `fn` or create a fresh
empty one, then return a wrapper closing over that cache. -/
def memo (s : MState) (fn : Nat) : Wrapper × MState :=
  match s.memos fn with
  | some c =>
    let w : Wrapper := ⟨fn, c⟩
    (w, { s with wrappers := s.wrappers ++ [w] })
  | none =>
    let c := s.nextCache
    let w : Wrapper := ⟨fn, c⟩
    (w, { s with
            memos := upd s.memos fn (some c),
            caches := upd s.caches c (fun _ => none),
            nextCache := c + 1,
            wrappers := s.wrappers ++ [w] })

/-- Calling a memoized wrapper: serialize the arguments, look the key up in
the captured cache; on a miss invoke the underlying function, store the
result and return it; on a hit return the stored value without invoking. -/
def callW (φ : FnEnv) (s : MState) (w : Wrapper) (args : List Int) : Int × MState :=
  let key := jsonKey args
  match s.caches w.cacheId key with
  | some v => (v, s)
  | none =>
    let v := φ w.fn args
    (v, { s with
            callLog := s.callLog ++ [(w.fn, args)],
            caches := upd s.caches w.cacheId (upd (s.caches w.cacheId) key (some v)) })

/-- Model of `Container.refresh`: delete the `memos` association for `fn`; the `Map`
objects captured by existing wrappers are untouched. -/
def refresh (s : MState) (fn : Nat) : MState :=
  { s with memos := upd s.memos fn none }

/-- One public memoizer operation; `callOp i args` calls the i-th wrapper
created so far (out-of-range indices are no-ops). -/
inductive MOp where
  | memoOp (fn : Nat)
  | callOp (i : Nat) (args : List Int)
  | refreshOp (fn : Nat)
deriving DecidableEq, Repr

/-- Execute one memoizer operation. -/
def mstep (φ : FnEnv) (s : MState) : MOp → MState
  | MOp.memoOp fn => (memo s fn).2
  | MOp.callOp i args =>
    match s.wrappers[i]? with
    | some w => (callW φ s w args).2
    | none => s
  | MOp.refreshOp fn => refresh s fn

/-- Execute a sequence of memoizer operations. -/
def runM (φ : FnEnv) (s : MState) : List MOp → MState
  | [] => s
  | op :: ops => runM φ (mstep φ s op) ops

/-- The initial memoizer state. -/
def minit : MState :=
  { memos := fun _ => none, caches := fun _ _ => none, nextCache := 0,
    wrappers := [], callLog := [] }

/-- Returns `true` exactly for `refresh` operations. -/
def MOp.isRefresh : MOp → Bool
  | MOp.refreshOp _ => true
  | _ => false

/-- Number of logged invocations of `f` whose arguments serialize to `k`. -/
def countCalls (s : MState) (f : Nat) (k : String) : Nat :=
  (s.callLog.filter (fun e => e.1 = f ∧ jsonKey e.2 = k)).length

/-!
## Basic lemmas about the registry operations
-/

/-- Invocation counts depend only on the log, not on the tables. -/
@[simp] theorem invocations_update_providers (s : CState) (pr : Token → Option Token)
    (p : Token) : invocations { s with providers := pr } p = invocations s p := rfl

@[simp] theorem invocations_update_instances (s : CState) (ins : Token → Option Nat)
    (p : Token) : invocations { s with instances := ins } p = invocations s p := rfl

theorem serve_ok (env : Env) (s : CState) (p : Token) (v : Nat)
    (h : env p (invocations s p) = Outcome.ret v) :
    serve env s p = (Except.ok v, { s with log := s.log ++ [⟨p, supports p, []⟩] }) := by
  simp only [serve, h]

theorem serve_thrown (env : Env) (s : CState) (p : Token)
    (h : env p (invocations s p) = Outcome.thrown) :
    serve env s p = (Except.error (), { s with log := s.log ++ [⟨p, supports p, []⟩] }) := by
  simp only [serve, h]

theorem serve_instances (env : Env) (s : CState) (p : Token) :
    (serve env s p).2.instances = s.instances := by
  cases h : env p (invocations s p)
  · rw [serve_ok env s p _ h]
  · rw [serve_thrown env s p h]

theorem serve_providers (env : Env) (s : CState) (p : Token) :
    (serve env s p).2.providers = s.providers := by
  cases h : env p (invocations s p)
  · rw [serve_ok env s p _ h]
  · rw [serve_thrown env s p h]

theorem serve_log (env : Env) (s : CState) (p : Token) :
    (serve env s p).2.log = s.log ++ [⟨p, supports p, []⟩] := by
  cases h : env p (invocations s p)
  · rw [serve_ok env s p _ h]
  · rw [serve_thrown env s p h]

/-- Behaviour of `register` on a non-throwing construction: full characterisation. -/
theorem register_ok (env : Env) (s : CState) (t : Token) (f : Option Token) (v : Nat)
    (h : env (f.getD t) (invocations s (f.getD t)) = Outcome.ret v) :
    register env s t f =
      (Except.ok (),
       { instances := upd s.instances t (some v),
         providers := upd s.providers t (some (f.getD t)),
         log := s.log ++ [⟨f.getD t, supports (f.getD t), []⟩] }) := by
  have hs : env (f.getD t)
      (invocations { s with providers := upd s.providers t (some (f.getD t)) } (f.getD t)) =
      Outcome.ret v := h
  simp only [register, serve_ok env _ (f.getD t) v hs]

/-- Behaviour of `register` on a throwing construction: the provider binding is already
committed, the instance is not, and the exception propagates. -/
theorem register_thrown (env : Env) (s : CState) (t : Token) (f : Option Token)
    (h : env (f.getD t) (invocations s (f.getD t)) = Outcome.thrown) :
    register env s t f =
      (Except.error (),
       { instances := s.instances,
         providers := upd s.providers t (some (f.getD t)),
         log := s.log ++ [⟨f.getD t, supports (f.getD t), []⟩] }) := by
  have hs : env (f.getD t)
      (invocations { s with providers := upd s.providers t (some (f.getD t)) } (f.getD t)) =
      Outcome.thrown := h
  simp only [register, serve_thrown env _ (f.getD t) hs]

theorem register_frame (env : Env) (s : CState) (u : Token) (f : Option Token)
    (t : Token) (h : t ≠ u) :
    (register env s u f).2.instances t = s.instances t ∧
    (register env s u f).2.providers t = s.providers t := by
  cases henv : env (f.getD u) (invocations s (f.getD u))
  · rw [register_ok env s u f _ henv]
    exact ⟨upd_other _ _ _ _ h, upd_other _ _ _ _ h⟩
  · rw [register_thrown env s u f henv]
    exact ⟨rfl, upd_other _ _ _ _ h⟩

theorem register_providers_self (env : Env) (s : CState) (t : Token) (f : Option Token) :
    (register env s t f).2.providers t = some (f.getD t) := by
  cases henv : env (f.getD t) (invocations s (f.getD t))
  · rw [register_ok env s t f _ henv]; exact upd_same _ _ _
  · rw [register_thrown env s t f henv]; exact upd_same _ _ _

/-- Non-fresh resolve with a bound provider and a cached instance: return the
cached instance, change nothing. -/
theorem resolve_cached (env : Env) (s : CState) (t : Token) (v : Nat)
    (hp : (s.providers t).isSome = true) (hi : s.instances t = some v) :
    resolve env s t false = (Except.ok v, s) := by
  simp only [resolve, hp, if_true, hi, Option.isSome_some, Bool.false_eq_true, if_false,
    Option.getD_some]

/-- Non-fresh resolve with a bound provider and no cached instance: invoke
the provider once, cache and return the result. -/
theorem resolve_lazy_ok (env : Env) (s : CState) (t p : Token) (v : Nat)
    (hp : s.providers t = some p) (hi : s.instances t = none)
    (henv : env p (invocations s p) = Outcome.ret v) :
    resolve env s t false =
      (Except.ok v,
       { instances := upd s.instances t (some v),
         providers := s.providers,
         log := s.log ++ [⟨p, supports p, []⟩] }) := by
  simp only [resolve, hp, Option.isSome_some, if_true, hi, Option.isSome_none,
    Bool.false_eq_true, if_false, Option.getD_some, serve_ok env s p v henv, upd_same]

/-- Non-fresh resolve with a bound provider, no cached instance, and a
throwing provider: the exception propagates and no instance is cached. -/
theorem resolve_lazy_thrown (env : Env) (s : CState) (t p : Token)
    (hp : s.providers t = some p) (hi : s.instances t = none)
    (henv : env p (invocations s p) = Outcome.thrown) :
    resolve env s t false =
      (Except.error (), { s with log := s.log ++ [⟨p, supports p, []⟩] }) := by
  simp only [resolve, hp, Option.isSome_some, if_true, hi, Option.isSome_none,
    Bool.false_eq_true, if_false, Option.getD_some, serve_thrown env s p henv]

/-- Fresh resolve with a bound provider: just serve the provider. -/
theorem resolve_fresh_bound (env : Env) (s : CState) (t p : Token)
    (hp : s.providers t = some p) :
    resolve env s t true = serve env s p := by
  simp only [resolve, hp, Option.isSome_some, if_true, Option.getD_some]

@[simp] theorem invocations_mk (ins : Token → Option Nat) (pr : Token → Option Token)
    (l : List Call) (p : Token) :
    invocations ⟨ins, pr, l⟩ p = (l.filter (fun c => c.target = p)).length := rfl

theorem invocations_log_snoc (ins : Token → Option Nat) (pr : Token → Option Token)
    (l : List Call) (c : Call) (p : Token) (h : c.target = p) :
    invocations ⟨ins, pr, l ++ [c]⟩ p =
      invocations ⟨ins, pr, l⟩ p + 1 := by
  simp [invocations, List.filter_append, h]

/-- Fresh resolve of a token with no bound provider: auto-registration serves
the token once and caches the result, then the fresh branch serves it a
second time and returns that second instance. -/
theorem resolve_unbound_fresh (env : Env) (s : CState) (t : Token) (v1 v2 : Nat)
    (h0 : s.providers t = none)
    (h1 : env t (invocations s t) = Outcome.ret v1)
    (h2 : env t (invocations s t + 1) = Outcome.ret v2) :
    resolve env s t true =
      (Except.ok v2,
       { instances := upd s.instances t (some v1),
         providers := upd s.providers t (some t),
         log := s.log ++ [⟨t, supports t, []⟩, ⟨t, supports t, []⟩] }) := by
  have hreg : register env s t none =
      (Except.ok (),
       { instances := upd s.instances t (some v1),
         providers := upd s.providers t (some t),
         log := s.log ++ [⟨t, supports t, []⟩] }) := by
    simpa using register_ok env s t none v1 (by simpa using h1)
  have hinv : invocations
      (⟨upd s.instances t (some v1), upd s.providers t (some t),
        s.log ++ [⟨t, supports t, []⟩]⟩ : CState) t = invocations s t + 1 := by
    rw [invocations_log_snoc _ _ _ _ _ rfl]
    simp [invocations]
  have hserve := serve_ok env
      (⟨upd s.instances t (some v1), upd s.providers t (some t),
        s.log ++ [⟨t, supports t, []⟩]⟩ : CState) t v2 (by rw [hinv]; exact h2)
  simp only [resolve, h0, Option.isSome_none, Bool.false_eq_true, if_false, hreg, if_true,
    upd_same, Option.getD_some, hserve]
  simp

/-- Non-fresh resolve of a token with no bound provider: auto-registration
serves the token once, caches the result, and that cached instance is
returned. -/
theorem resolve_unbound_nonfresh (env : Env) (s : CState) (t : Token) (v1 : Nat)
    (h0 : s.providers t = none)
    (h1 : env t (invocations s t) = Outcome.ret v1) :
    resolve env s t false =
      (Except.ok v1,
       { instances := upd s.instances t (some v1),
         providers := upd s.providers t (some t),
         log := s.log ++ [⟨t, supports t, []⟩] }) := by
  have hreg : register env s t none =
      (Except.ok (),
       { instances := upd s.instances t (some v1),
         providers := upd s.providers t (some t),
         log := s.log ++ [⟨t, supports t, []⟩] }) := by
    simpa using register_ok env s t none v1 (by simpa using h1)
  simp only [resolve, h0, Option.isSome_none, Bool.false_eq_true, if_false, hreg,
    upd_same, Option.isSome_some, if_true, Option.getD_some]

/-- Fresh resolve of a token with no bound provider, where the second
construction throws: the auto-registration's instance stays cached and the
exception propagates. -/
theorem resolve_unbound_fresh_thrown2 (env : Env) (s : CState) (t : Token) (v1 : Nat)
    (h0 : s.providers t = none)
    (h1 : env t (invocations s t) = Outcome.ret v1)
    (h2 : env t (invocations s t + 1) = Outcome.thrown) :
    resolve env s t true =
      (Except.error (),
       { instances := upd s.instances t (some v1),
         providers := upd s.providers t (some t),
         log := s.log ++ [⟨t, supports t, []⟩, ⟨t, supports t, []⟩] }) := by
  have hreg : register env s t none =
      (Except.ok (),
       { instances := upd s.instances t (some v1),
         providers := upd s.providers t (some t),
         log := s.log ++ [⟨t, supports t, []⟩] }) := by
    simpa using register_ok env s t none v1 (by simpa using h1)
  have hinv : invocations
      (⟨upd s.instances t (some v1), upd s.providers t (some t),
        s.log ++ [⟨t, supports t, []⟩]⟩ : CState) t = invocations s t + 1 := by
    rw [invocations_log_snoc _ _ _ _ _ rfl]
    simp [invocations]
  have hserve := serve_thrown env
      (⟨upd s.instances t (some v1), upd s.providers t (some t),
        s.log ++ [⟨t, supports t, []⟩]⟩ : CState) t (by rw [hinv]; exact h2)
  simp only [resolve, h0, Option.isSome_none, Bool.false_eq_true, if_false, hreg, if_true,
    upd_same, Option.getD_some, hserve]
  simp

/-- Resolve of a token with no bound provider whose auto-registration
throws: the exception propagates, the provider binding is committed, no
instance is cached. -/
theorem resolve_unbound_reg_thrown (env : Env) (s : CState) (t : Token) (fr : Bool)
    (h0 : s.providers t = none)
    (h1 : env t (invocations s t) = Outcome.thrown) :
    resolve env s t fr =
      (Except.error (),
       { instances := s.instances,
         providers := upd s.providers t (some t),
         log := s.log ++ [⟨t, supports t, []⟩] }) := by
  have hreg : register env s t none =
      (Except.error (),
       { instances := s.instances,
         providers := upd s.providers t (some t),
         log := s.log ++ [⟨t, supports t, []⟩] }) := by
    simpa using register_thrown env s t none (by simpa using h1)
  simp only [resolve, h0, Option.isSome_none, Bool.false_eq_true, if_false, hreg]

/-- After any resolve of a token that had no bound provider, the token is
bound as its own provider — even when the construction threw. -/
theorem resolve_unbound_providers_self (env : Env) (s : CState) (t : Token) (fr : Bool)
    (h0 : s.providers t = none) :
    (resolve env s t fr).2.providers t = some t := by
  cases henv : env t (invocations s t) with
  | ret v1 =>
    have hreg : register env s t none =
        (Except.ok (),
         { instances := upd s.instances t (some v1),
           providers := upd s.providers t (some t),
           log := s.log ++ [⟨t, supports t, []⟩] }) := by
      simpa using register_ok env s t none v1 (by simpa using henv)
    cases fr
    · rw [resolve_unbound_nonfresh env s t v1 h0 henv]
      exact upd_same _ _ _
    · simp only [resolve, h0, Option.isSome_none, Bool.false_eq_true, if_false, hreg, if_true]
      rw [serve_providers]
      exact upd_same _ _ _
  | thrown =>
    have hreg : register env s t none =
        (Except.error (),
         { instances := s.instances,
           providers := upd s.providers t (some t),
           log := s.log ++ [⟨t, supports t, []⟩] }) := by
      simpa using register_thrown env s t none (by simpa using henv)
    simp only [resolve, h0, Option.isSome_none, Bool.false_eq_true, if_false, hreg]
    exact upd_same _ _ _

/-!
## Frame and invariant lemmas for the registry
-/

theorem resolve_frame (env : Env) (s : CState) (u : Token) (fr : Bool) (t : Token)
    (h : t ≠ u) :
    (resolve env s u fr).2.instances t = s.instances t ∧
    (resolve env s u fr).2.providers t = s.providers t := by
  by_cases hp : (s.providers u).isSome = true
  · obtain ⟨p, hp'⟩ := Option.isSome_iff_exists.mp hp
    cases fr
    · by_cases hi : (s.instances u).isSome = true
      · obtain ⟨v, hi'⟩ := Option.isSome_iff_exists.mp hi
        rw [resolve_cached env s u v hp hi']
        exact ⟨rfl, rfl⟩
      · have hi' : s.instances u = none := Option.not_isSome_iff_eq_none.mp hi
        cases henv : env p (invocations s p)
        · rw [resolve_lazy_ok env s u p _ hp' hi' henv]
          exact ⟨upd_other _ _ _ _ h, rfl⟩
        · rw [resolve_lazy_thrown env s u p hp' hi' henv]
          exact ⟨rfl, rfl⟩
    · rw [resolve_fresh_bound env s u p hp']
      rw [serve_instances, serve_providers]
      exact ⟨rfl, rfl⟩
  · have hp' : s.providers u = none := Option.not_isSome_iff_eq_none.mp hp
    cases henv : env u (invocations s u) with
    | ret v1 =>
      cases fr
      · rw [resolve_unbound_nonfresh env s u v1 hp' henv]
        exact ⟨upd_other _ _ _ _ h, upd_other _ _ _ _ h⟩
      · cases henv2 : env u (invocations s u + 1)
        · rw [resolve_unbound_fresh env s u v1 _ hp' henv henv2]
          exact ⟨upd_other _ _ _ _ h, upd_other _ _ _ _ h⟩
        · rw [resolve_unbound_fresh_thrown2 env s u v1 hp' henv henv2]
          exact ⟨upd_other _ _ _ _ h, upd_other _ _ _ _ h⟩
    | thrown =>
      rw [resolve_unbound_reg_thrown env s u fr hp' henv]
      exact ⟨rfl, upd_other _ _ _ _ h⟩

theorem unregister_frame (s : CState) (u : Token) (d : Bool) (t : Token) (h : t ≠ u) :
    (unregister s u d).instances t = s.instances t ∧
    (unregister s u d).providers t = s.providers t := by
  unfold unregister
  cases d <;> simp [upd_other _ _ _ _ h]

/-- The spec's table invariant: a cached instance never exists without a
bound provider. -/
def InvC (s : CState) : Prop :=
  ∀ t, (s.instances t).isSome = true → (s.providers t).isSome = true

theorem invC_register (env : Env) (s : CState) (t : Token) (f : Option Token)
    (h : InvC s) : InvC (register env s t f).2 := by
  cases henv : env (f.getD t) (invocations s (f.getD t))
  · rw [register_ok env s t f _ henv]
    intro u hu
    by_cases hut : u = t
    · subst hut; simp [upd_same]
    · simp only [upd, if_neg hut] at hu ⊢
      exact h u hu
  · rw [register_thrown env s t f henv]
    intro u hu
    by_cases hut : u = t
    · subst hut; simp [upd_same]
    · simp only [upd, if_neg hut]
      exact h u hu

theorem invC_resolve (env : Env) (s : CState) (t : Token) (fr : Bool)
    (h : InvC s) : InvC (resolve env s t fr).2 := by
  by_cases hp : (s.providers t).isSome = true
  · obtain ⟨p, hp'⟩ := Option.isSome_iff_exists.mp hp
    cases fr
    · by_cases hi : (s.instances t).isSome = true
      · obtain ⟨v, hi'⟩ := Option.isSome_iff_exists.mp hi
        rw [resolve_cached env s t v hp hi']
        exact h
      · have hi' : s.instances t = none := Option.not_isSome_iff_eq_none.mp hi
        cases henv : env p (invocations s p)
        · rw [resolve_lazy_ok env s t p _ hp' hi' henv]
          intro u hu
          by_cases hut : u = t
          · subst hut; simpa using hp
          · simp only [upd, if_neg hut] at hu
            exact h u hu
        · rw [resolve_lazy_thrown env s t p hp' hi' henv]
          exact h
    · rw [resolve_fresh_bound env s t p hp']
      intro u hu
      rw [serve_instances] at hu
      rw [serve_providers]
      exact h u hu
  · have hp' : s.providers t = none := Option.not_isSome_iff_eq_none.mp hp
    cases henv : env t (invocations s t) with
    | ret v1 =>
      cases fr
      · rw [resolve_unbound_nonfresh env s t v1 hp' henv]
        intro u hu
        by_cases hut : u = t
        · subst hut; simp [upd_same]
        · simp only [upd, if_neg hut] at hu ⊢
          exact h u hu
      · cases henv2 : env t (invocations s t + 1)
        · rw [resolve_unbound_fresh env s t v1 _ hp' henv henv2]
          intro u hu
          by_cases hut : u = t
          · subst hut; simp [upd_same]
          · simp only [upd, if_neg hut] at hu ⊢
            exact h u hu
        · rw [resolve_unbound_fresh_thrown2 env s t v1 hp' henv henv2]
          intro u hu
          by_cases hut : u = t
          · subst hut; simp [upd_same]
          · simp only [upd, if_neg hut] at hu ⊢
            exact h u hu
    | thrown =>
      rw [resolve_unbound_reg_thrown env s t fr hp' henv]
      intro u hu
      by_cases hut : u = t
      · subst hut; simp [upd_same]
      · simp only [upd, if_neg hut]
        exact h u hu

theorem invC_unregister (s : CState) (t : Token) (d : Bool)
    (h : InvC s) : InvC (unregister s t d) := by
  intro u hu
  by_cases hut : u = t
  · subst hut
    unfold unregister at hu
    cases d <;> simp [upd_same] at hu
  · obtain ⟨h1, h2⟩ := unregister_frame s t d u hut
    rw [h1] at hu
    rw [h2]
    exact h u hu

theorem invC_step (env : Env) (s : CState) (op : Op) (h : InvC s) :
    InvC (stepOp env s op) := by
  cases op with
  | reg t f => exact invC_register env s t f h
  | res t fr => exact invC_resolve env s t fr h
  | unreg t d => exact invC_unregister s t d h

theorem invC_runOps (env : Env) (s : CState) (ops : List Op) (h : InvC s) :
    InvC (runOps env s ops) := by
  induction ops generalizing s with
  | nil => exact h
  | cons op ops ih => exact ih _ (invC_step env s op h)

theorem invC_cinit : InvC cinit := by
  intro t ht
  simp [cinit] at ht

/-- If no producer ever throws, resolve always returns a value. -/
theorem resolve_total (env : Env) (s : CState) (t : Token) (fr : Bool)
    (htot : ∀ u k, env u k ≠ Outcome.thrown) :
    ∃ v, (resolve env s t fr).1 = Except.ok v := by
  by_cases hp : (s.providers t).isSome = true
  · obtain ⟨p, hp'⟩ := Option.isSome_iff_exists.mp hp
    cases fr
    · by_cases hi : (s.instances t).isSome = true
      · obtain ⟨v, hi'⟩ := Option.isSome_iff_exists.mp hi
        exact ⟨v, by rw [resolve_cached env s t v hp hi']⟩
      · have hi' : s.instances t = none := Option.not_isSome_iff_eq_none.mp hi
        cases henv : env p (invocations s p) with
        | ret v => exact ⟨v, by rw [resolve_lazy_ok env s t p v hp' hi' henv]⟩
        | thrown => exact absurd henv (htot p _)
    · cases henv : env p (invocations s p) with
      | ret v =>
        exact ⟨v, by rw [resolve_fresh_bound env s t p hp', serve_ok env s p v henv]⟩
      | thrown => exact absurd henv (htot p _)
  · have hp' : s.providers t = none := Option.not_isSome_iff_eq_none.mp hp
    cases henv : env t (invocations s t) with
    | ret v1 =>
      cases fr
      · exact ⟨v1, by rw [resolve_unbound_nonfresh env s t v1 hp' henv]⟩
      · cases henv2 : env t (invocations s t + 1) with
        | ret v2 =>
          exact ⟨v2, by rw [resolve_unbound_fresh env s t v1 v2 hp' henv henv2]⟩
        | thrown => exact absurd henv2 (htot t _)
    | thrown => exact absurd henv (htot t _)

/-!
## Concrete fixtures
-/

/-- A factory-style producer: callable, falsy prototype (e.g. an arrow
function). -/
def tok0 : Token := ⟨0, true, false⟩

/-- A class-style producer: callable with a truthy prototype. -/
def tokC : Token := ⟨1, true, true⟩

/-- Every construction returns a fresh object: the k-th invocation of a
producer yields object k. -/
def envFresh : Env := fun _ k => Outcome.ret k

/-- Every construction throws. -/
def envThrow : Env := fun _ _ => Outcome.thrown

/-- State after `register(tok0)` under `envFresh`. -/
def sReg : CState := (register envFresh cinit tok0 none).2

/-- Returns `true` iff the operation writes the registry entries of `t`
(`register(t, _)` or `unregister(t, _)`). -/
def Op.touches (t : Token) : Op → Bool
  | Op.reg u _ => u = t
  | Op.unreg u _ => u = t
  | Op.res _ _ => false

/-- Returns `true` iff the operation is `unregister(t, _)`. -/
def Op.isUnregOf (t : Token) : Op → Bool
  | Op.unreg u _ => u = t
  | _ => false

/-!
## Lemmas for the singleton-identity claim
-/

/-- A successful non-fresh resolve leaves the returned value cached and a
provider bound. -/
theorem resolve_false_ok_cached (env : Env) (s : CState) (t : Token) (v : Nat)
    (h : (resolve env s t false).1 = Except.ok v) :
    (resolve env s t false).2.instances t = some v ∧
    ((resolve env s t false).2.providers t).isSome = true := by
  by_cases hp : (s.providers t).isSome = true
  · obtain ⟨p, hp'⟩ := Option.isSome_iff_exists.mp hp
    by_cases hi : (s.instances t).isSome = true
    · obtain ⟨w, hi'⟩ := Option.isSome_iff_exists.mp hi
      rw [resolve_cached env s t w hp hi'] at h ⊢
      have hwv : w = v := by simpa using h
      subst hwv
      exact ⟨hi', hp⟩
    · have hi' : s.instances t = none := Option.not_isSome_iff_eq_none.mp hi
      cases henv : env p (invocations s p) with
      | ret w =>
        rw [resolve_lazy_ok env s t p w hp' hi' henv] at h ⊢
        have hwv : w = v := by simpa using h
        subst hwv
        exact ⟨upd_same _ _ _, hp⟩
      | thrown =>
        rw [resolve_lazy_thrown env s t p hp' hi' henv] at h
        simp at h
  · have hp' : s.providers t = none := Option.not_isSome_iff_eq_none.mp hp
    cases henv : env t (invocations s t) with
    | ret v1 =>
      rw [resolve_unbound_nonfresh env s t v1 hp' henv] at h ⊢
      have hwv : v1 = v := by simpa using h
      subst hwv
      exact ⟨upd_same _ _ _, by simp [upd_same]⟩
    | thrown =>
      rw [resolve_unbound_reg_thrown env s t false hp' henv] at h
      simp at h

/-- One operation that does not write `t`'s entries preserves a cached
instance and bound provider of `t`. -/
theorem step_preserves_cached (env : Env) (s : CState) (t : Token) (op : Op) (v : Nat)
    (hi : s.instances t = some v) (hpp : (s.providers t).isSome = true)
    (hop : op.touches t = false) :
    (stepOp env s op).instances t = some v ∧
    ((stepOp env s op).providers t).isSome = true := by
  cases op with
  | reg u f =>
    have hut : t ≠ u := by
      intro he
      subst he
      simp [Op.touches] at hop
    obtain ⟨e1, e2⟩ := register_frame env s u f t hut
    exact ⟨by rw [stepOp, e1, hi], by rw [stepOp, e2]; exact hpp⟩
  | res u fr =>
    by_cases hut : t = u
    · subst hut
      obtain ⟨p, hp'⟩ := Option.isSome_iff_exists.mp hpp
      cases fr
      · rw [stepOp, resolve_cached env s t v hpp hi]
        exact ⟨hi, hpp⟩
      · rw [stepOp, resolve_fresh_bound env s t p hp', serve_instances, serve_providers]
        exact ⟨hi, hpp⟩
    · obtain ⟨e1, e2⟩ := resolve_frame env s u fr t hut
      exact ⟨by rw [stepOp, e1, hi], by rw [stepOp, e2]; exact hpp⟩
  | unreg u d =>
    have hut : t ≠ u := by
      intro he
      subst he
      simp [Op.touches] at hop
    obtain ⟨e1, e2⟩ := unregister_frame s u d t hut
    exact ⟨by rw [stepOp, e1, hi], by rw [stepOp, e2]; exact hpp⟩

/-- A sequence of operations none of which writes `t`'s entries preserves a
cached instance and bound provider of `t`. -/
theorem runOps_preserves_cached (env : Env) (s : CState) (t : Token) (ops : List Op)
    (v : Nat) (hi : s.instances t = some v) (hpp : (s.providers t).isSome = true)
    (hops : ops.all (fun op => !(op.touches t)) = true) :
    (runOps env s ops).instances t = some v ∧
    ((runOps env s ops).providers t).isSome = true := by
  induction ops generalizing s with
  | nil => exact ⟨hi, hpp⟩
  | cons op ops ih =>
    rw [List.all_cons, Bool.and_eq_true] at hops
    have hop : op.touches t = false := by
      cases hto : op.touches t
      · rfl
      · rw [hto] at hops; simp at hops
    obtain ⟨h1, h2⟩ := step_preserves_cached env s t op v hi hpp hop
    exact ih _ h1 h2 hops.2

/-!
## Claim theorems: the registry
-/

/-- C4: `serve` records an invocation of the producer with
object-construction semantics exactly when the producer is supported —
i.e. it is a callable value (`instanceof Function`) with a truthy
prototype — and with plain-call semantics otherwise; the argument list
passed is empty in both cases. -/
theorem C4_serve_classification (env : Env) (s : CState) (p : Token) :
    (serve env s p).2.log = s.log ++ [⟨p, supports p, []⟩] ∧
    (supports p = true ↔ p.isFunction = true ∧ p.hasPrototype = true) := by
  exact ⟨serve_log env s p, by simp [supports, Bool.and_eq_true]⟩

/-- C5: a fresh resolution of a token with a bound provider invokes that
provider once and returns its brand-new result, leaving the instances table
and the providers table exactly unchanged. -/
theorem C5_resolve_fresh_frame (env : Env) (s : CState) (t p : Token)
    (hp : s.providers t = some p) :
    (resolve env s t true).1 = (serve env s p).1 ∧
    (resolve env s t true).2.instances = s.instances ∧
    (resolve env s t true).2.providers = s.providers ∧
    (resolve env s t true).2.log = s.log ++ [⟨p, supports p, []⟩] := by
  rw [resolve_fresh_bound env s t p hp]
  exact ⟨rfl, serve_instances env s p, serve_providers env s p, serve_log env s p⟩

/-- C5 witness: concrete fresh resolution after registering `tok0`. -/
theorem C5_witness :
    sReg.providers tok0 = some tok0 ∧
    ((resolve envFresh sReg tok0 true).1 = (serve envFresh sReg tok0).1 ∧
     (resolve envFresh sReg tok0 true).2.instances = sReg.instances ∧
     (resolve envFresh sReg tok0 true).2.providers = sReg.providers ∧
     (resolve envFresh sReg tok0 true).2.log =
       sReg.log ++ [⟨tok0, supports tok0, []⟩]) := by
  have hp : sReg.providers tok0 = some tok0 := by decide
  exact ⟨hp, C5_resolve_fresh_frame envFresh sReg tok0 tok0 hp⟩

/-- Re-updating a table at the same key keeps only the last value. -/
theorem upd_upd {κ α : Type} [DecidableEq κ] (f : κ → α) (k : κ) (v w : α) :
    upd (upd f k v) k w = upd f k w := by
  funext x
  by_cases hx : x = k <;> simp [upd, hx]

/-- C6: `register(t, f)` binds `f ?? t` as `t`'s provider and eagerly serves
it exactly once, storing the result as `t`'s cached instance; it returns
normally for any prior state — re-registration silently overwrites both the
prior provider binding and the prior cached instance — and no other token's
entries are touched. -/
theorem C6_register_spec (env : Env) (s : CState) (t : Token) (f : Option Token) (v : Nat)
    (h : env (f.getD t) (invocations s (f.getD t)) = Outcome.ret v) :
    (register env s t f).1 = Except.ok () ∧
    (register env s t f).2.providers t = some (f.getD t) ∧
    (register env s t f).2.instances t = some v ∧
    (register env s t f).2.log = s.log ++ [⟨f.getD t, supports (f.getD t), []⟩] ∧
    (∀ u, u ≠ t → (register env s t f).2.providers u = s.providers u ∧
                  (register env s t f).2.instances u = s.instances u) := by
  rw [register_ok env s t f v h]
  refine ⟨rfl, upd_same _ _ _, upd_same _ _ _, rfl, ?_⟩
  intro u hu
  exact ⟨upd_other _ _ _ _ hu, upd_other _ _ _ _ hu⟩

/-- C6 witness: re-registering the already-registered `tok0` with an
explicit factory `tokC` succeeds and overwrites both bindings. -/
theorem C6_witness :
    envFresh ((some tokC).getD tok0) (invocations sReg ((some tokC).getD tok0)) =
      Outcome.ret 0 ∧
    ((register envFresh sReg tok0 (some tokC)).1 = Except.ok () ∧
     (register envFresh sReg tok0 (some tokC)).2.providers tok0 =
       some ((some tokC).getD tok0) ∧
     (register envFresh sReg tok0 (some tokC)).2.instances tok0 = some 0 ∧
     (register envFresh sReg tok0 (some tokC)).2.log =
       sReg.log ++ [⟨(some tokC).getD tok0, supports ((some tokC).getD tok0), []⟩] ∧
     (∀ u, u ≠ tok0 →
       (register envFresh sReg tok0 (some tokC)).2.providers u = sReg.providers u ∧
       (register envFresh sReg tok0 (some tokC)).2.instances u = sReg.instances u)) := by
  have h : envFresh ((some tokC).getD tok0) (invocations sReg ((some tokC).getD tok0)) =
      Outcome.ret 0 := by decide
  exact ⟨h, C6_register_spec envFresh sReg tok0 (some tokC) 0 h⟩

/-- C8: `unregister(t, d)` removes `t`'s cached instance unconditionally,
removes `t`'s provider binding iff `d`, and touches no other token's entries
nor the invocation history; after `unregister(t, false)` the next non-fresh
resolve re-invokes the retained provider and caches the new instance; after
`unregister(t, true)` the next resolve auto-registers `t` as its own
provider. -/
theorem C8_unregister_spec (env : Env) (s : CState) (t : Token) (d : Bool) (p : Token)
    (v : Nat) (hp : s.providers t = some p)
    (henv : env p (invocations s p) = Outcome.ret v) :
    (unregister s t d).instances t = none ∧
    (unregister s t d).providers t = (if d then none else s.providers t) ∧
    (∀ u, u ≠ t → (unregister s t d).instances u = s.instances u ∧
                  (unregister s t d).providers u = s.providers u) ∧
    (unregister s t d).log = s.log ∧
    resolve env (unregister s t false) t false =
      (Except.ok v,
       { instances := upd s.instances t (some v),
         providers := s.providers,
         log := s.log ++ [⟨p, supports p, []⟩] }) ∧
    (∀ fr, (resolve env (unregister s t true) t fr).2.providers t = some t) := by
  have hu_false : unregister s t false = { s with instances := upd s.instances t none } := rfl
  have hu_true_prov : (unregister s t true).providers t = none := by
    unfold unregister
    simp [upd_same]
  refine ⟨?_, ?_, ?_, ?_, ?_, ?_⟩
  · unfold unregister
    cases d <;> simp [upd_same]
  · unfold unregister
    cases d <;> simp [upd_same]
  · intro u hu
    exact unregister_frame s t d u hu
  · unfold unregister
    cases d <;> rfl
  · have hp2 : ({ s with instances := upd s.instances t none } : CState).providers t =
        some p := hp
    have hi2 : ({ s with instances := upd s.instances t none } : CState).instances t =
        none := upd_same _ _ _
    have henv2 : env p (invocations { s with instances := upd s.instances t none } p) =
        Outcome.ret v := henv
    rw [hu_false, resolve_lazy_ok env _ t p v hp2 hi2 henv2]
    simp [upd_upd]
  · intro fr
    exact resolve_unbound_providers_self env _ t fr hu_true_prov

/-- C8 witness: unregistering the registered `tok0` (keeping the provider). -/
theorem C8_witness :
    sReg.providers tok0 = some tok0 ∧
    envFresh tok0 (invocations sReg tok0) = Outcome.ret 1 ∧
    ((unregister sReg tok0 true).instances tok0 = none ∧
     (unregister sReg tok0 true).providers tok0 = (if true then none else sReg.providers tok0) ∧
     (∀ u, u ≠ tok0 → (unregister sReg tok0 true).instances u = sReg.instances u ∧
                      (unregister sReg tok0 true).providers u = sReg.providers u) ∧
     (unregister sReg tok0 true).log = sReg.log ∧
     resolve envFresh (unregister sReg tok0 false) tok0 false =
       (Except.ok 1,
        { instances := upd sReg.instances tok0 (some 1),
          providers := sReg.providers,
          log := sReg.log ++ [⟨tok0, supports tok0, []⟩] }) ∧
     (∀ fr, (resolve envFresh (unregister sReg tok0 true) tok0 fr).2.providers tok0 =
        some tok0)) := by
  have hp : sReg.providers tok0 = some tok0 := by decide
  have henv : envFresh tok0 (invocations sReg tok0) = Outcome.ret 1 := by decide
  exact ⟨hp, henv, C8_unregister_spec envFresh sReg tok0 true tok0 1 hp henv⟩

/-- C10: a fresh resolution of a token with no bound provider invokes the
producer twice: the implicit auto-registration eagerly constructs one
instance and writes it into the singleton cache, and the fresh branch then
constructs and returns a second instance. -/
theorem C10_fresh_unregistered (env : Env) (s : CState) (t : Token) (v1 v2 : Nat)
    (h0 : s.providers t = none)
    (h1 : env t (invocations s t) = Outcome.ret v1)
    (h2 : env t (invocations s t + 1) = Outcome.ret v2) :
    (resolve env s t true).1 = Except.ok v2 ∧
    (resolve env s t true).2.instances t = some v1 ∧
    invocations (resolve env s t true).2 t = invocations s t + 2 := by
  rw [resolve_unbound_fresh env s t v1 v2 h0 h1 h2]
  refine ⟨rfl, upd_same _ _ _, ?_⟩
  simp [invocations, List.filter_append]

/-- C10 witness: the unregistered `tok0` resolved fresh from the empty
container — two constructions, cache holds object 0, caller gets object 1. -/
theorem C10_witness :
    cinit.providers tok0 = none ∧
    envFresh tok0 (invocations cinit tok0) = Outcome.ret 0 ∧
    envFresh tok0 (invocations cinit tok0 + 1) = Outcome.ret 1 ∧
    ((resolve envFresh cinit tok0 true).1 = Except.ok 1 ∧
     (resolve envFresh cinit tok0 true).2.instances tok0 = some 0 ∧
     invocations (resolve envFresh cinit tok0 true).2 tok0 =
       invocations cinit tok0 + 2) := by
  have h0 : cinit.providers tok0 = none := by decide
  have h1 : envFresh tok0 (invocations cinit tok0) = Outcome.ret 0 := by decide
  have h2 : envFresh tok0 (invocations cinit tok0 + 1) = Outcome.ret 1 := by decide
  exact ⟨h0, h1, h2, C10_fresh_unregistered envFresh cinit tok0 0 1 h0 h1 h2⟩

/-- C2 counterexample: registering `tok0` with a throwing producer on the
empty container propagates the exception, yet the provider binding for
`tok0` *has* been committed (it was written before the construction
attempt), refuting "neither an instance entry nor a provider binding has
been written". -/
theorem C2_counterexample :
    (register envThrow cinit tok0 none).1 = Except.error () ∧
    cinit.providers tok0 = none ∧
    (register envThrow cinit tok0 none).2.providers tok0 = some tok0 ∧
    (register envThrow cinit tok0 none).2.instances tok0 = none := by
  refine ⟨rfl, rfl, ?_, ?_⟩ <;> decide

/-- C2 (amended): if the provider throws during the eager construction
inside `register`, the exception propagates to the caller and no instance
entry is written for any token, but the provider binding for the token has
already been committed before the construction attempt; no other token's
provider binding is touched. -/
theorem C2_register_throw_state (env : Env) (s : CState) (t : Token) (f : Option Token)
    (h : (register env s t f).1 = Except.error ()) :
    (∀ u, (register env s t f).2.instances u = s.instances u) ∧
    (register env s t f).2.providers t = some (f.getD t) ∧
    (∀ u, u ≠ t → (register env s t f).2.providers u = s.providers u) := by
  cases henv : env (f.getD t) (invocations s (f.getD t)) with
  | ret v =>
    rw [register_ok env s t f v henv] at h
    simp at h
  | thrown =>
    rw [register_thrown env s t f henv]
    exact ⟨fun u => rfl, upd_same _ _ _, fun u hu => upd_other _ _ _ _ hu⟩

/-- C2 witness: the amended statement at the concrete throwing
registration. -/
theorem C2_witness :
    (register envThrow cinit tok0 none).1 = Except.error () ∧
    ((∀ u, (register envThrow cinit tok0 none).2.instances u = cinit.instances u) ∧
     (register envThrow cinit tok0 none).2.providers tok0 =
       some ((none : Option Token).getD tok0) ∧
     (∀ u, u ≠ tok0 →
       (register envThrow cinit tok0 none).2.providers u = cinit.providers u)) := by
  have h : (register envThrow cinit tok0 none).1 = Except.error () := rfl
  exact ⟨h, C2_register_throw_state envThrow cinit tok0 none h⟩

/-- C9: in every state reachable from the empty container by any sequence
of operations — including ones whose constructions throw — a cached
instance entry implies a bound provider entry; and under an environment
whose producers never throw, `resolve` always returns a value. -/
theorem C9_invariant (env : Env) (ops : List Op) :
    InvC (runOps env cinit ops) ∧
    ((∀ u k, env u k ≠ Outcome.thrown) →
      ∀ s t fr, ∃ v, (resolve env s t fr).1 = Except.ok v) := by
  exact ⟨invC_runOps env cinit ops invC_cinit,
         fun htot s t fr => resolve_total env s t fr htot⟩

/-- C9 witness: a concrete operation sequence with a throwing registration
in it, and totality of resolution under `envFresh`. -/
theorem C9_witness :
    (InvC (runOps envFresh cinit
       [Op.reg tok0 none, Op.res tokC true, Op.unreg tok0 true, Op.res tok0 false]) ∧
     ((∀ u k, envFresh u k ≠ Outcome.thrown) →
       ∀ s t fr, ∃ v, (resolve envFresh s t fr).1 = Except.ok v)) ∧
    (∀ u k, envFresh u k ≠ Outcome.thrown) ∧
    (∃ v, (resolve envFresh cinit tokC false).1 = Except.ok v) := by
  have htot : ∀ u k, envFresh u k ≠ Outcome.thrown := by
    intro u k h
    simp [envFresh] at h
  have hmain := C9_invariant envFresh
    [Op.reg tok0 none, Op.res tokC true, Op.unreg tok0 true, Op.res tok0 false]
  exact ⟨hmain, htot, hmain.2 htot cinit tokC false⟩

/-- C1 counterexample: two non-fresh resolutions of `tok0` with a single
intervening operation that is *not* an `unregister` — a re-`register` of
`tok0` — return different instances (object 0, then object 1), refuting the
claim as stated. -/
theorem C1_counterexample :
    ([Op.reg tok0 none].all (fun op => !(op.isUnregOf tok0)) = true) ∧
    (resolve envFresh cinit tok0 false).1 = Except.ok 0 ∧
    (resolve envFresh
       (runOps envFresh (resolve envFresh cinit tok0 false).2 [Op.reg tok0 none])
       tok0 false).1 = Except.ok 1 := by
  refine ⟨by decide, rfl, rfl⟩

/-- C1 (amended): after a successful non-fresh resolution of `t`, any
sequence of operations containing no `unregister(t, _)` and no
`register(t, _)` preserves the cached instance, so a later non-fresh
resolution returns the identical instance and changes nothing — in
particular the provider is not re-invoked. -/
theorem C1_singleton_identity (env : Env) (s : CState) (t : Token) (ops : List Op)
    (v : Nat) (h1 : (resolve env s t false).1 = Except.ok v)
    (h2 : ops.all (fun op => !(op.touches t)) = true) :
    (resolve env (runOps env (resolve env s t false).2 ops) t false).1 = Except.ok v ∧
    (resolve env (runOps env (resolve env s t false).2 ops) t false).2 =
      runOps env (resolve env s t false).2 ops := by
  obtain ⟨hi, hpp⟩ := resolve_false_ok_cached env s t v h1
  obtain ⟨hi2, hpp2⟩ :=
    runOps_preserves_cached env (resolve env s t false).2 t ops v hi hpp h2
  rw [resolve_cached env _ t v hpp2 hi2]
  exact ⟨rfl, rfl⟩

/-- C1 witness: resolve `tok0`, run operations on the unrelated `tokC`,
resolve `tok0` again — same instance, no state change. -/
theorem C1_witness :
    (resolve envFresh cinit tok0 false).1 = Except.ok 0 ∧
    ([Op.res tokC false, Op.unreg tokC true].all
       (fun op => !(op.touches tok0)) = true) ∧
    ((resolve envFresh
        (runOps envFresh (resolve envFresh cinit tok0 false).2
          [Op.res tokC false, Op.unreg tokC true]) tok0 false).1 = Except.ok 0 ∧
     (resolve envFresh
        (runOps envFresh (resolve envFresh cinit tok0 false).2
          [Op.res tokC false, Op.unreg tokC true]) tok0 false).2 =
       runOps envFresh (resolve envFresh cinit tok0 false).2
         [Op.res tokC false, Op.unreg tokC true]) := by
  have h1 : (resolve envFresh cinit tok0 false).1 = Except.ok 0 := rfl
  have h2 : [Op.res tokC false, Op.unreg tokC true].all
      (fun op => !(op.touches tok0)) = true := by decide
  exact ⟨h1, h2, C1_singleton_identity envFresh cinit tok0
    [Op.res tokC false, Op.unreg tokC true] 0 h1 h2⟩

/-!
## Lemmas about the memoizer
-/

theorem memo_bound (s : MState) (fn c : Nat) (h : s.memos fn = some c) :
    memo s fn = (⟨fn, c⟩, { s with wrappers := s.wrappers ++ [⟨fn, c⟩] }) := by
  simp only [memo, h]

theorem memo_unbound (s : MState) (fn : Nat) (h : s.memos fn = none) :
    memo s fn =
      (⟨fn, s.nextCache⟩,
       { s with
           memos := upd s.memos fn (some s.nextCache),
           caches := upd s.caches s.nextCache (fun _ => none),
           nextCache := s.nextCache + 1,
           wrappers := s.wrappers ++ [⟨fn, s.nextCache⟩] }) := by
  simp only [memo, h]

/-- A cache hit returns the stored value and changes nothing — in
particular the underlying function is not invoked. -/
theorem callW_hit (φ : FnEnv) (s : MState) (w : Wrapper) (args : List Int) (v : Int)
    (h : s.caches w.cacheId (jsonKey args) = some v) :
    callW φ s w args = (v, s) := by
  simp only [callW, h]

/-- A cache miss invokes the underlying function, stores the result under
the serialized key, and returns it. -/
theorem callW_miss (φ : FnEnv) (s : MState) (w : Wrapper) (args : List Int)
    (h : s.caches w.cacheId (jsonKey args) = none) :
    callW φ s w args =
      (φ w.fn args,
       { s with
           callLog := s.callLog ++ [(w.fn, args)],
           caches := upd s.caches w.cacheId
             (upd (s.caches w.cacheId) (jsonKey args) (some (φ w.fn args))) }) := by
  simp only [callW, h]

/-- The behaviour used in the memoizer fixtures: every function returns 42. -/
def phi0 : FnEnv := fun _ _ => 42

/-- The wrapper obtained from the first `memo` of function 0. -/
def w0 : Wrapper := (memo minit 0).1

/-- State after `memo(0)`. -/
def sM1 : MState := (memo minit 0).2

/-- State after `memo(0)` and a call of the wrapper at `[10]`. -/
def sM2 : MState := (callW phi0 sM1 w0 [10]).2

/-- State after `memo(0)`, a call at `[10]`, and `refresh(0)`. -/
def sM3 : MState := refresh sM2 0

/-- C3 counterexample: after `refresh(0)`, calling the wrapper that was
created *before* the refresh with the already-cached argument list `[10]`
returns the stored result and does not invoke the underlying function
again — the invocation log still holds exactly the one pre-refresh call. -/
theorem C3_counterexample :
    sM2.callLog = [(0, [10])] ∧
    (callW phi0 sM3 w0 [10]).1 = 42 ∧
    (callW phi0 sM3 w0 [10]).2.callLog = [(0, [10])] := by
  refine ⟨rfl, rfl, rfl⟩

/-- C3 (amended): `refresh(fn)` deletes only the memos association and
leaves every existing cache untouched, so a wrapper obtained from
`memo(fn)` *after* the refresh starts from an empty cache: its first call
for any argument list invokes `fn` again and returns the recomputed value.
Wrappers created before the refresh keep their captured cache and may keep
returning previously stored results. -/
theorem C3_refresh_recompute (φ : FnEnv) (s : MState) (fn : Nat) (args : List Int) :
    (refresh s fn).memos fn = none ∧
    (refresh s fn).caches = s.caches ∧
    (∀ k, (memo (refresh s fn) fn).2.caches ((memo (refresh s fn) fn).1).cacheId k
      = none) ∧
    (callW φ (memo (refresh s fn) fn).2 (memo (refresh s fn) fn).1 args).2.callLog =
      (memo (refresh s fn) fn).2.callLog ++ [(fn, args)] ∧
    (callW φ (memo (refresh s fn) fn).2 (memo (refresh s fn) fn).1 args).1 =
      φ fn args := by
  have h0 : (refresh s fn).memos fn = none := upd_same _ _ _
  have hm := memo_unbound (refresh s fn) fn h0
  have hc : ∀ k, (memo (refresh s fn) fn).2.caches
      ((memo (refresh s fn) fn).1).cacheId k = none := by
    intro k
    rw [hm]
    simp [upd_same]
  have hmiss := callW_miss φ (memo (refresh s fn) fn).2 (memo (refresh s fn) fn).1 args
    (hc (jsonKey args))
  refine ⟨h0, rfl, hc, ?_, ?_⟩
  · rw [hmiss, hm]
  · rw [hmiss, hm]

/-!
## Inductive invariant of the memoizer in refresh-free runs
-/

/-- Invariant maintained by `memo` and wrapper calls (no `refresh`):
cache ids are below the allocation counter, every created wrapper's cache is
the one currently associated with its function, distinct functions have
distinct caches, unassociated functions were never invoked, every logged
invocation's key is present in the function's cache, and each (function,
key) pair was invoked at most once. -/
def InvM (s : MState) : Prop :=
  (∀ f c, s.memos f = some c → c < s.nextCache) ∧
  (∀ w ∈ s.wrappers, s.memos w.fn = some w.cacheId) ∧
  (∀ f g c, s.memos f = some c → s.memos g = some c → f = g) ∧
  (∀ f, s.memos f = none → ∀ e ∈ s.callLog, e.1 ≠ f) ∧
  (∀ f c, s.memos f = some c → ∀ e ∈ s.callLog, e.1 = f →
    (s.caches c (jsonKey e.2)).isSome = true) ∧
  (∀ f k, countCalls s f k ≤ 1)

theorem countCalls_eq_zero (s : MState) (f : Nat) (k : String)
    (h : ∀ e ∈ s.callLog, ¬(e.1 = f ∧ jsonKey e.2 = k)) : countCalls s f k = 0 := by
  unfold countCalls
  rw [List.length_eq_zero, List.filter_eq_nil_iff]
  intro e he
  simpa using h e he

theorem countCalls_snoc (s s' : MState) (e0 : Nat × List Int) (f : Nat) (k : String)
    (h : s'.callLog = s.callLog ++ [e0]) :
    countCalls s' f k =
      countCalls s f k + (if e0.1 = f ∧ jsonKey e0.2 = k then 1 else 0) := by
  unfold countCalls
  rw [h, List.filter_append, List.length_append]
  congr 1
  by_cases hp : e0.1 = f ∧ jsonKey e0.2 = k <;> simp [hp]

theorem countCalls_pos_exists (s : MState) (f : Nat) (k : String)
    (h : countCalls s f k ≠ 0) :
    ∃ e ∈ s.callLog, e.1 = f ∧ jsonKey e.2 = k := by
  unfold countCalls at h
  have hpos : 0 < (s.callLog.filter (fun e => e.1 = f ∧ jsonKey e.2 = k)).length :=
    Nat.pos_of_ne_zero h
  obtain ⟨e, he⟩ := List.exists_mem_of_length_pos hpos
  rw [List.mem_filter] at he
  exact ⟨e, he.1, by simpa using he.2⟩

theorem invM_memo (s : MState) (fn : Nat) (h : InvM s) : InvM (memo s fn).2 := by
  obtain ⟨h1, h2, h3, h4, h5, h6⟩ := h
  cases hb : s.memos fn with
  | some c =>
    rw [memo_bound s fn c hb]
    unfold InvM
    dsimp only
    refine ⟨h1, ?_, h3, h4, h5, h6⟩
    intro w hw
    rw [List.mem_append, List.mem_singleton] at hw
    cases hw with
    | inl hw => exact h2 w hw
    | inr hw => rw [hw]; exact hb
  | none =>
    rw [memo_unbound s fn hb]
    unfold InvM
    dsimp only
    refine ⟨?_, ?_, ?_, ?_, ?_, h6⟩
    · intro f c hf
      by_cases hffn : f = fn
      · subst hffn
        rw [upd_same] at hf
        exact Nat.lt_succ_of_le (Nat.le_of_eq (Option.some.inj hf).symm)
      · rw [upd_other _ _ _ _ hffn] at hf
        exact Nat.lt_succ_of_lt (h1 f c hf)
    · intro w hw
      rw [List.mem_append, List.mem_singleton] at hw
      cases hw with
      | inl hw =>
        have hmw := h2 w hw
        by_cases hwfn : w.fn = fn
        · rw [hwfn, hb] at hmw
          exact absurd hmw (by simp)
        · rw [upd_other _ _ _ _ hwfn]
          exact hmw
      | inr hw => rw [hw]; exact upd_same _ _ _
    · intro f g c hf hg
      by_cases hffn : f = fn <;> by_cases hgfn : g = fn
      · rw [hffn, hgfn]
      · rw [hffn, upd_same] at hf
        rw [upd_other _ _ _ _ hgfn] at hg
        have := h1 g c hg
        rw [← Option.some.inj hf] at this
        exact absurd this (Nat.lt_irrefl _)
      · rw [hgfn, upd_same] at hg
        rw [upd_other _ _ _ _ hffn] at hf
        have := h1 f c hf
        rw [← Option.some.inj hg] at this
        exact absurd this (Nat.lt_irrefl _)
      · rw [upd_other _ _ _ _ hffn] at hf
        rw [upd_other _ _ _ _ hgfn] at hg
        exact h3 f g c hf hg
    · intro f hf e he
      by_cases hffn : f = fn
      · subst hffn
        rw [upd_same] at hf
        exact absurd hf (by simp)
      · rw [upd_other _ _ _ _ hffn] at hf
        exact h4 f hf e he
    · intro f c hf e he hef
      by_cases hffn : f = fn
      · subst hffn
        exact absurd hef (h4 f hb e he)
      · rw [upd_other _ _ _ _ hffn] at hf
        have hclt := h1 f c hf
        have hcne : c ≠ s.nextCache := Nat.ne_of_lt hclt
        rw [upd_other _ _ _ _ hcne]
        exact h5 f c hf e he hef

theorem invM_call (φ : FnEnv) (s : MState) (w : Wrapper) (args : List Int)
    (hwmem : w ∈ s.wrappers) (h : InvM s) : InvM (callW φ s w args).2 := by
  obtain ⟨h1, h2, h3, h4, h5, h6⟩ := h
  cases hc : s.caches w.cacheId (jsonKey args) with
  | some v =>
    rw [callW_hit φ s w args v hc]
    exact ⟨h1, h2, h3, h4, h5, h6⟩
  | none =>
    rw [callW_miss φ s w args hc]
    unfold InvM
    dsimp only
    refine ⟨h1, h2, h3, ?_, ?_, ?_⟩
    · intro f hf e he
      rw [List.mem_append, List.mem_singleton] at he
      cases he with
      | inl he => exact h4 f hf e he
      | inr he =>
        rw [he]
        dsimp only
        intro hwf
        have hm := h2 w hwmem
        rw [hwf, hf] at hm
        exact absurd hm (by simp)
    · intro f c hf e he hef
      rw [List.mem_append, List.mem_singleton] at he
      cases he with
      | inl he =>
        by_cases hcc : c = w.cacheId
        · subst hcc
          rw [upd_same]
          by_cases hk : jsonKey e.2 = jsonKey args
          · rw [hk, upd_same]
            simp
          · rw [upd_other _ _ _ _ hk]
            exact h5 f _ hf e he hef
        · rw [upd_other _ _ _ _ hcc]
          exact h5 f c hf e he hef
      | inr he =>
        subst he
        dsimp only at hef
        have hm := h2 w hwmem
        rw [hef, hf] at hm
        have hcw : c = w.cacheId := Option.some.inj hm
        rw [hcw, upd_same, upd_same]
        simp
    · intro f k
      have hsnoc : countCalls
          { s with
              callLog := s.callLog ++ [(w.fn, args)],
              caches := upd s.caches w.cacheId
                (upd (s.caches w.cacheId) (jsonKey args) (some (φ w.fn args))) } f k =
          countCalls s f k +
            (if (w.fn, args).1 = f ∧ jsonKey (w.fn, args).2 = k then 1 else 0) :=
        countCalls_snoc s _ (w.fn, args) f k rfl
      rw [hsnoc]
      by_cases hp : (w.fn, args).1 = f ∧ jsonKey (w.fn, args).2 = k
      · rw [if_pos hp]
        obtain ⟨hpf, hpk⟩ := hp
        dsimp only at hpf hpk
        have hzero : countCalls s f k = 0 := by
          by_contra hnz
          obtain ⟨e, he, he1, he2⟩ := countCalls_pos_exists s f k hnz
          have hm := h2 w hwmem
          have hiso := h5 f w.cacheId (by rw [← hpf]; exact hm) e he he1
          rw [he2, ← hpk, hc] at hiso
          simp at hiso
        rw [hzero]
      · rw [if_neg hp]
        simpa using h6 f k

theorem invM_mstep (φ : FnEnv) (s : MState) (op : MOp) (hop : op.isRefresh = false)
    (h : InvM s) : InvM (mstep φ s op) := by
  cases op with
  | memoOp fn => exact invM_memo s fn h
  | callOp i args =>
    dsimp only [mstep]
    cases hw : s.wrappers[i]? with
    | none => exact h
    | some w => exact invM_call φ s w args (List.getElem?_mem hw) h
  | refreshOp fn => simp [MOp.isRefresh] at hop

theorem invM_runM (φ : FnEnv) (s : MState) (ops : List MOp)
    (h : InvM s) (hops : ops.all (fun op => !(op.isRefresh)) = true) :
    InvM (runM φ s ops) := by
  induction ops generalizing s with
  | nil => exact h
  | cons op ops ih =>
    rw [List.all_cons, Bool.and_eq_true] at hops
    have hop : op.isRefresh = false := by
      cases ho : op.isRefresh
      · rfl
      · rw [ho] at hops; simp at hops
    exact ih _ (invM_mstep φ s op hop h) hops.2

theorem invM_minit : InvM minit := by
  refine ⟨?_, ?_, ?_, ?_, ?_, ?_⟩ <;>
    simp [minit, countCalls, InvM, List.mem_nil_iff]

/-- C7: in any refresh-free run from the initial memoizer state, all
wrappers created for the same function reference are backed by the same
underlying cache, wrappers for distinct function references never share a
cache, the underlying function is invoked at most once per serialized
argument key across all its wrappers, and a call whose arguments serialize
to an already-stored key returns the stored result without invoking the
function (the state — including the invocation log — is unchanged). -/
theorem C7_shared_cache (φ : FnEnv) (ops : List MOp)
    (h : ops.all (fun op => !(op.isRefresh)) = true) :
    (∀ w1 ∈ (runM φ minit ops).wrappers, ∀ w2 ∈ (runM φ minit ops).wrappers,
       (w1.fn = w2.fn → w1.cacheId = w2.cacheId) ∧
       (w1.fn ≠ w2.fn → w1.cacheId ≠ w2.cacheId)) ∧
    (∀ f k, countCalls (runM φ minit ops) f k ≤ 1) ∧
    (∀ w args v,
       (runM φ minit ops).caches w.cacheId (jsonKey args) = some v →
       callW φ (runM φ minit ops) w args = (v, runM φ minit ops)) := by
  obtain ⟨h1, h2, h3, h4, h5, h6⟩ := invM_runM φ minit ops invM_minit h
  refine ⟨?_, h6, ?_⟩
  · intro w1 hw1 w2 hw2
    have e1 := h2 w1 hw1
    have e2 := h2 w2 hw2
    constructor
    · intro hfn
      rw [hfn] at e1
      exact Option.some.inj (e1.symm.trans e2)
    · intro hfn hceq
      apply hfn
      exact h3 w1.fn w2.fn w1.cacheId e1 (by rw [hceq]; exact e2)
  · intro w args v hv
    exact callW_hit φ _ w args v hv

/-- C7 witness: two wraps of function 0 and one of function 1, with calls
through both wrappers of function 0 at the same argument. -/
theorem C7_witness :
    ([MOp.memoOp 0, MOp.callOp 0 [10], MOp.memoOp 0, MOp.callOp 1 [10],
      MOp.memoOp 1].all (fun op => !(op.isRefresh)) = true) ∧
    ((∀ w1 ∈ (runM phi0 minit [MOp.memoOp 0, MOp.callOp 0 [10], MOp.memoOp 0,
          MOp.callOp 1 [10], MOp.memoOp 1]).wrappers,
        ∀ w2 ∈ (runM phi0 minit [MOp.memoOp 0, MOp.callOp 0 [10], MOp.memoOp 0,
          MOp.callOp 1 [10], MOp.memoOp 1]).wrappers,
        (w1.fn = w2.fn → w1.cacheId = w2.cacheId) ∧
        (w1.fn ≠ w2.fn → w1.cacheId ≠ w2.cacheId)) ∧
     (∀ f k, countCalls (runM phi0 minit [MOp.memoOp 0, MOp.callOp 0 [10],
        MOp.memoOp 0, MOp.callOp 1 [10], MOp.memoOp 1]) f k ≤ 1) ∧
     (∀ w args v,
        (runM phi0 minit [MOp.memoOp 0, MOp.callOp 0 [10], MOp.memoOp 0,
          MOp.callOp 1 [10], MOp.memoOp 1]).caches w.cacheId (jsonKey args) = some v →
        callW phi0 (runM phi0 minit [MOp.memoOp 0, MOp.callOp 0 [10], MOp.memoOp 0,
          MOp.callOp 1 [10], MOp.memoOp 1]) w args =
          (v, runM phi0 minit [MOp.memoOp 0, MOp.callOp 0 [10], MOp.memoOp 0,
            MOp.callOp 1 [10], MOp.memoOp 1]))) := by
  have h : [MOp.memoOp 0, MOp.callOp 0 [10], MOp.memoOp 0, MOp.callOp 1 [10],
      MOp.memoOp 1].all (fun op => !(op.isRefresh)) = true := by decide
  exact ⟨h, C7_shared_cache phi0 [MOp.memoOp 0, MOp.callOp 0 [10], MOp.memoOp 0,
    MOp.callOp 1 [10], MOp.memoOp 1] h⟩
